import Mathlib

/-!
# Verification of the serverless-log-forwarding resource synthesis

A shallow embedding of `src/index.js` (class `LogForwardingPlugin`).

Modelling conventions:
* JavaScript `null`/`undefined` string fields become `Option String` (`none`);
  JS truthiness of a string value (`null`, `undefined` and `""` are falsy) is
  `truthyStr`.
* A JS object used as a string-keyed map becomes an association list
  `List (String × Resource)` with unique keys in insertion order; property
  assignment `obj[k] = v` is `setKey` (overwrite in place, else append), and
  underscore's `_.extend(obj, upd)` is `extendObj`.
* The host's naming utilities (`this.provider.naming.*`) and the function
  catalog are external collaborators, passed in as a record of pure
  functions (`Naming`) and an association list (`Service.functions`).
* Thrown JS exceptions become an explicit error value; `updateResources`
  threads the host state explicitly and returns the state at the point the
  exception escaped, so that "no partial mutation" claims are meaningful.
-/

namespace LogForwarding

/-- Errors escaping the plugin: the explicit configuration `Error` thrown by
`createResourcesObj`, and `TypeError`s from property accesses on `undefined`. -/
inductive JsError where
  | typeError (msg : String)
  | configError (msg : String)
deriving DecidableEq

/-- Properties of the `AWS::Lambda::Permission` resource (src lines 79–83).
`FunctionName` is `arn || destinationFnName`, which can be a JS falsy value,
hence `Option String`. -/
structure PermissionProps where
  FunctionName : Option String
  Action : String
  Principal : String
deriving DecidableEq

/-- Properties of an `AWS::Logs::SubscriptionFilter` resource (src lines 117–121).
`DestinationArn` is set to the raw `arn` argument, which may be `undefined`. -/
structure SubscriptionProps where
  DestinationArn : Option String
  FilterPattern : String
  LogGroupName : String
deriving DecidableEq

/-- A CloudFormation resource declaration produced by the plugin: its `Type`
tag together with its kind-specific `Properties` and optional `DependsOn`. -/
inductive Resource where
  | permission (props : PermissionProps) (dependsOn : Option (List String))
  | subscriptionFilter (props : SubscriptionProps) (dependsOn : List String)
deriving DecidableEq

/-- The `DependsOn` attribute of a declaration (`none` when absent). -/
def Resource.dependsOn : Resource → Option (List String)
  | .permission _ d => d
  | .subscriptionFilter _ d => some d

/-- A JS object holding resource declarations keyed by logical id, in
insertion order with unique keys. -/
abbrev ResourceMap := List (String × Resource)

/-- The host's naming collaborator (`this.provider.naming`), duck-typed in the
source; modelled as a record of pure functions. -/
structure Naming where
  getLambdaLogicalId : String → String
  getLogGroupName : String → String
  getNormalizedFunctionName : String → String
  getLogGroupLogicalId : String → String

/-- Function metadata from the catalog; `makeSubscriptionFilter` only reads
its deployed `name`. -/
structure FunctionObject where
  name : String
deriving DecidableEq

/-- The `custom.logForwarding` configuration block. -/
structure Conf where
  destinationARN : Option String
  destinationFn : Option String
  filterPattern : Option String
  stages : Option (List String)
deriving DecidableEq

/-- The `custom` section of the service description. -/
structure Custom where
  logForwarding : Option Conf
deriving DecidableEq

/-- The inner `service` object reached as `serverless.service.service` in the
source's `conf` getter: its `custom` section may be absent. -/
structure ServiceInner where
  custom : Option Custom
deriving DecidableEq

/-- The `service.resources` section; its `Resources` namespace may be absent. -/
structure ResourcesSection where
  Resources : Option ResourceMap
deriving DecidableEq

/-- Provider settings read by the plugin (`service.provider.region`,
`service.provider.stage`). -/
structure Provider where
  region : String
  stage : String
deriving DecidableEq

/-- The slice of `this.serverless.service` the plugin reads and writes. -/
structure Service where
  serviceInner : ServiceInner
  provider : Provider
  functions : List (String × FunctionObject)
  resources : Option ResourcesSection
deriving DecidableEq

/-- CLI options (`this.options`); `stage` may be absent. -/
structure Options where
  stage : Option String
deriving DecidableEq

/-! ## JavaScript value helpers -/

/-- JS truthiness of an optional string: `null`/`undefined` and `""` are falsy. -/
def truthyStr : Option String → Bool
  | none => false
  | some s => s ≠ ""

/-- JS `a || b` on optional string values. -/
def jsOr (a b : Option String) : Option String :=
  if truthyStr a then a else b

/-- JS `a || b` where the fallback `b` is a plain string (used for
`conf.filterPattern || ''`). -/
def jsOrD (a : Option String) (b : String) : String :=
  match a with
  | some s => if s = "" then b else s
  | none => b

/-! ## JS objects as association lists -/

/-- Property assignment `obj[k] = v` on a JS object (keys unique): overwrite
the entry for `k` in place if present, else append `(k, v)`. -/
def setKey : ResourceMap → String → Resource → ResourceMap
  | [], k, v => [(k, v)]
  | e :: rest, k, v => if e.1 = k then (k, v) :: rest else e :: setKey rest k v

/-- `_.extend(obj, upd)`: assign every property of `upd` into `obj`, in order. -/
def extendObj (obj upd : ResourceMap) : ResourceMap :=
  upd.foldl (fun o e => setKey o e.1 e.2) obj

/-- Property read `obj[q]` on a JS object. -/
def lookupKey : ResourceMap → String → Option Resource
  | [], _ => none
  | e :: rest, q => if e.1 = q then some e.2 else lookupKey rest q

/-! ## The plugin, embedded -/

/-- `serverless.service.getFunction(name)`: catalog lookup. The plugin only
calls it with names that are catalog keys, so the default is never reached. -/
def getFunction (functions : List (String × FunctionObject)) (n : String) :
    FunctionObject :=
  match functions.lookup n with
  | some f => f
  | none => ⟨""⟩

/-- The names of the catalog's functions, `_.keys(service.functions)`
(src line 67), in catalog order. -/
def catalogKeys (s : Service) : List String :=
  s.functions.map (·.1)

/-- Logical id of a generated subscription filter (src line 112):
the normalized function name with the fixed leading tag. -/
def subKey (naming : Naming) (functionName : String) : String :=
  "SubscriptionFilter" ++ naming.getNormalizedFunctionName functionName

/-- `makeSubscriptionFilter` (src lines 109–128): a singleton object mapping
the filter's logical id to the subscription-filter declaration. -/
def makeSubscriptionFilter (s : Service) (naming : Naming) (arn : Option String)
    (functionName : String) (filterPattern : String) : ResourceMap :=
  let functionObject := getFunction s.functions functionName
  let logGroupName := naming.getLogGroupName functionObject.name
  let functionLogGroupId := naming.getLogGroupLogicalId functionName
  [(subKey naming functionName,
    .subscriptionFilter
      { DestinationArn := arn
        FilterPattern := filterPattern
        LogGroupName := logGroupName }
      ["LogForwardingLambdaPermission", functionLogGroupId])]

/-- The filtered target list (src lines 67–71): all catalog keys, minus the
destination function when `destinationFn` is truthy (loop prevention). -/
def targets (s : Service) (conf : Conf) : List String :=
  match conf.destinationFn with
  | some d => if d = "" then catalogKeys s else (catalogKeys s).filter (fun n => n ≠ d)
  | none => catalogKeys s

/-- The permission's `DependsOn` (src lines 87–91): set only when
`destinationFn` is truthy. -/
def permDeps (conf : Conf) (naming : Naming) : Option (List String) :=
  match conf.destinationFn with
  | some d => if d = "" then none else some [naming.getLambdaLogicalId d]
  | none => none

/-- The `AWS::Lambda::Permission` declaration (src lines 76–91). -/
def permRes (s : Service) (conf : Conf) (naming : Naming) : Resource :=
  .permission
    { FunctionName := jsOr conf.destinationARN conf.destinationFn
      Action := "lambda:InvokeFunction"
      Principal := "logs." ++ s.provider.region ++ ".amazonaws.com" }
    (permDeps conf naming)

/-- The configuration error message thrown at src line 60. -/
def configErrorMsg : String :=
  "Serverless-log-forwarding is not configured correctly. Please see README for proper setup."

/-- `createResourcesObj` (src lines 55–99): validate the destination, then
build the object holding the single permission and, looping over the targets,
`_.extend` in each function's subscription filter. -/
def createResourcesObj (s : Service) (conf : Conf) (naming : Naming) :
    Except JsError ResourceMap :=
  if conf.destinationARN.isNone && conf.destinationFn.isNone then
    .error (.configError configErrorMsg)
  else
    let filterPattern := jsOrD conf.filterPattern ""
    .ok ((targets s conf).foldl
      (fun obj n =>
        extendObj obj (makeSubscriptionFilter s naming conf.destinationARN n filterPattern))
      [("LogForwardingLambdaPermission", permRes s conf naming)])

/-- Message of the `TypeError` thrown by the `conf` getter (src line 18) when
`custom` is `undefined`. -/
def typeErrorLogForwarding : String :=
  "Cannot read properties of undefined (reading 'logForwarding')"

/-- Message of the `TypeError` thrown at src line 31 when
`custom.logForwarding` is `undefined` and `conf.stages` is read. -/
def typeErrorStages : String :=
  "Cannot read properties of undefined (reading 'stages')"

/-- The `conf` getter (src lines 17–19): reading `.logForwarding` off an
absent `custom` throws a `TypeError`; otherwise it yields the (possibly
absent) configuration block. -/
def getConf (s : Service) : Except JsError (Option Conf) :=
  match s.serviceInner.custom with
  | none => .error (.typeError typeErrorLogForwarding)
  | some c => .ok c.logForwarding

/-- Stage selection (src lines 28–30): the CLI option when it is a non-empty
string, else the provider's stage. -/
def stageOf (opts : Options) (s : Service) : String :=
  match opts.stage with
  | some st => if st.length > 0 then st else s.provider.stage
  | none => s.provider.stage

/-- Result of one `updateResources` invocation: the host state when control
left the plugin, the `cli.log` messages emitted, and the escaped exception
if one was thrown. -/
structure RunResult where
  service : Service
  logs : List String
  error : Option JsError
deriving DecidableEq

/-- The `Resources` object `_.extend` merges into, after the initialization of
src lines 39–45: the host's existing entries, or the fresh empty object when
`service.resources` or its `Resources` namespace was absent. -/
def existingResources (s : Service) : ResourceMap :=
  match s.resources with
  | none => []
  | some rs =>
    match rs.Resources with
    | none => []
    | some b => b

/-- The part of `updateResources` after the stage gate (src lines 37–47):
log, synthesize, initialize the `Resources` namespace if absent, and
`_.extend` the produced object into it. On the error path the host state is
returned as it was, since the merge statements follow the synthesis call. -/
def updateResourcesBody (s : Service) (conf : Conf) (naming : Naming) : RunResult :=
  let logs := ["Updating Log Forwarding Resources..."]
  match createResourcesObj s conf naming with
  | .error e => { service := s, logs := logs, error := some e }
  | .ok resourceObj =>
    let merged := extendObj (existingResources s) resourceObj
    { service := { s with resources := some ⟨some merged⟩ }
      logs := logs ++ ["Log Forwarding Resources Updated"]
      error := none }

/-- `updateResources` (src lines 24–48): read the configuration (possibly
throwing a `TypeError`), apply the stage gate (src lines 31–35), then run
the synthesis-and-merge body. -/
def updateResources (s : Service) (opts : Options) (naming : Naming) : RunResult :=
  match getConf s with
  | .error e => { service := s, logs := [], error := some e }
  | .ok none => { service := s, logs := [], error := some (.typeError typeErrorStages) }
  | .ok (some conf) =>
    let stage := stageOf opts s
    match conf.stages with
    | some stagesList =>
      if stagesList.contains stage then
        updateResourcesBody s conf naming
      else
        { service := s
          logs := ["Log Forwarding is ignored for " ++ stage ++ " stage"]
          error := none }
    | none => updateResourcesBody s conf naming

/-! ## Helper forms of the synthesized object -/

/-- The subscription-filter declaration `makeSubscriptionFilter` builds for
function `n` (the value part of its singleton object). -/
def subResFor (s : Service) (naming : Naming) (arn : Option String)
    (filterPattern : String) (n : String) : Resource :=
  .subscriptionFilter
    { DestinationArn := arn
      FilterPattern := filterPattern
      LogGroupName := naming.getLogGroupName (getFunction s.functions n).name }
    ["LogForwardingLambdaPermission", naming.getLogGroupLogicalId n]

/-- Number of entries of a resource object carrying logical id `q`. -/
def keyCount (obj : ResourceMap) (q : String) : Nat :=
  obj.countP (fun e => e.1 == q)

/-! ## Concrete instances, used to evaluate the theorems on closed inputs -/

/-- A concrete naming collaborator in the style of the serverless framework's
own naming scheme (with an identity normalization, which is injective). -/
def naming0 : Naming :=
  { getLambdaLogicalId := fun n => n ++ "LambdaFunction"
    getLogGroupName := fun n => "/aws/lambda/" ++ n
    getNormalizedFunctionName := fun n => n
    getLogGroupLogicalId := fun n => n ++ "LogGroup" }

/-- Configuration forwarding to the in-service function `fnDest`. -/
def conf1 : Conf :=
  { destinationARN := none
    destinationFn := some "fnDest"
    filterPattern := none
    stages := none }

/-- A service with catalog `{fnA, fnDest}` carrying `conf1`. -/
def service1 : Service :=
  { serviceInner := ⟨some ⟨some conf1⟩⟩
    provider := ⟨"us-east-1", "dev"⟩
    functions := [("fnA", ⟨"svc-fnA"⟩), ("fnDest", ⟨"svc-fnDest"⟩)]
    resources := none }

/-- The object synthesized for `service1`/`conf1`. -/
def obj1 : ResourceMap :=
  (createResourcesObj service1 conf1 naming0).toOption.getD []

/-- Configuration forwarding to an external ARN with a filter pattern. -/
def conf2 : Conf :=
  { destinationARN := some "arn:aws:lambda:us-east-1:123:function:dest"
    destinationFn := none
    filterPattern := some "ERROR"
    stages := none }

/-- A service with catalog `{fnA, fnB}`, carrying `conf2` and a pre-existing
resource entry under the key `Existing`. -/
def service2 : Service :=
  { serviceInner := ⟨some ⟨some conf2⟩⟩
    provider := ⟨"us-east-1", "prod"⟩
    functions := [("fnA", ⟨"svc-fnA"⟩), ("fnB", ⟨"svc-fnB"⟩)]
    resources := some ⟨some [("Existing", .permission ⟨some "keep", "a", "p"⟩ none)]⟩ }

/-- The object synthesized for `service2`/`conf2`. -/
def obj2 : ResourceMap :=
  (createResourcesObj service2 conf2 naming0).toOption.getD []

/-- A configuration with no destination at all. -/
def confBad : Conf :=
  { destinationARN := none, destinationFn := none, filterPattern := none, stages := none }

/-- A service carrying the destination-less `confBad`. -/
def serviceBad : Service :=
  { serviceInner := ⟨some ⟨some confBad⟩⟩
    provider := ⟨"us-east-1", "dev"⟩
    functions := [("fnA", ⟨"svc-fnA"⟩)]
    resources := none }

/-- A configuration restricted to the `production` stage. -/
def confStaged : Conf :=
  { destinationARN := some "arn:aws:lambda:us-east-1:123:function:dest"
    destinationFn := none
    filterPattern := none
    stages := some ["production"] }

/-- A service deployed to stage `dev` carrying `confStaged`. -/
def serviceStaged : Service :=
  { serviceInner := ⟨some ⟨some confStaged⟩⟩
    provider := ⟨"us-east-1", "dev"⟩
    functions := [("fnA", ⟨"svc-fnA"⟩)]
    resources := none }

/-- A service whose `custom` section is absent. -/
def serviceNoCustom : Service :=
  { serviceInner := ⟨none⟩
    provider := ⟨"us-east-1", "dev"⟩
    functions := [("fnA", ⟨"svc-fnA"⟩)]
    resources := none }

/-- A service whose `custom` section carries no `logForwarding` block. -/
def serviceNoLF : Service :=
  { serviceInner := ⟨some ⟨none⟩⟩
    provider := ⟨"us-east-1", "dev"⟩
    functions := [("fnA", ⟨"svc-fnA"⟩)]
    resources := none }

/-- CLI options passing no `--stage`. -/
def opts0 : Options := ⟨none⟩

/-! ## Lemmas about JS object assignment -/

theorem mem_setKey {obj : ResourceMap} {k : String} {v : Resource}
    {e : String × Resource} (he : e ∈ setKey obj k v) : e ∈ obj ∨ e = (k, v) := by
  induction obj with
  | nil => simp [setKey] at he; simp [he]
  | cons a rest ih =>
    simp only [setKey] at he
    split at he
    · rcases List.mem_cons.mp he with h | h
      · right; exact h
      · left; exact List.mem_cons_of_mem _ h
    · rcases List.mem_cons.mp he with h | h
      · left; exact h ▸ List.mem_cons_self _ _
      · rcases ih h with h' | h'
        · left; exact List.mem_cons_of_mem _ h'
        · right; exact h'

theorem mem_setKey_of_ne {obj : ResourceMap} {k : String} {v : Resource}
    {e : String × Resource} (hne : e.1 ≠ k) (he : e ∈ obj) : e ∈ setKey obj k v := by
  induction obj with
  | nil => cases he
  | cons a rest ih =>
    simp only [setKey]
    rcases List.mem_cons.mp he with h | h
    · subst h
      rw [if_neg hne]
      exact List.mem_cons_self _ _
    · split
      · exact List.mem_cons_of_mem _ h
      · exact List.mem_cons_of_mem _ (ih h)

theorem keyCount_setKey_ne {obj : ResourceMap} {k q : String} {v : Resource}
    (h : k ≠ q) : keyCount (setKey obj k v) q = keyCount obj q := by
  induction obj with
  | nil => simp [setKey, keyCount, List.countP_cons, h]
  | cons a rest ih =>
    simp only [setKey]
    split
    · rename_i ha
      simp only [keyCount, List.countP_cons] at *
      rw [ha]
    · simp only [keyCount, List.countP_cons] at *
      rw [ih]

theorem lookupKey_setKey_self {obj : ResourceMap} {k : String} {v : Resource} :
    lookupKey (setKey obj k v) k = some v := by
  induction obj with
  | nil => simp [setKey, lookupKey]
  | cons a rest ih =>
    simp only [setKey]
    split
    · simp [lookupKey]
    · rename_i ha
      simp [lookupKey, ha, ih]

theorem lookupKey_setKey_ne {obj : ResourceMap} {k q : String} {v : Resource}
    (h : q ≠ k) : lookupKey (setKey obj k v) q = lookupKey obj q := by
  have hkq : ¬(k = q) := fun h' => h h'.symm
  induction obj with
  | nil =>
    simp only [setKey, lookupKey]
    rw [if_neg hkq]
  | cons a rest ih =>
    simp only [setKey]
    split
    · rename_i ha
      have haq : ¬(a.1 = q) := fun h' => hkq (ha.symm.trans h')
      simp only [lookupKey]
      rw [if_neg hkq, if_neg haq]
    · by_cases haq : a.1 = q
      · simp [lookupKey, haq]
      · simp [lookupKey, haq, ih]

theorem setKey_of_fresh {obj : ResourceMap} {k : String} {v : Resource}
    (h : ∀ e ∈ obj, e.1 ≠ k) : setKey obj k v = obj ++ [(k, v)] := by
  induction obj with
  | nil => simp [setKey]
  | cons a rest ih =>
    simp only [setKey]
    rw [if_neg (h a (List.mem_cons_self _ _))]
    rw [ih (fun e he => h e (List.mem_cons_of_mem _ he))]
    simp

theorem keys_setKey_sub {obj : ResourceMap} {k q : String} {v : Resource}
    (h : q ∈ (setKey obj k v).map (·.1)) : q ∈ obj.map (·.1) ∨ q = k := by
  rcases List.mem_map.mp h with ⟨e, he, hq⟩
  rcases mem_setKey he with h' | h'
  · left; exact List.mem_map.mpr ⟨e, h', hq⟩
  · right; rw [← hq, h']

theorem nodupKeys_setKey {obj : ResourceMap} {k : String} {v : Resource}
    (h : (obj.map (·.1)).Nodup) : ((setKey obj k v).map (·.1)).Nodup := by
  induction obj with
  | nil => simp [setKey]
  | cons a rest ih =>
    simp only [setKey]
    rw [List.map_cons, List.nodup_cons] at h
    split
    · rename_i ha
      rw [List.map_cons, List.nodup_cons]
      exact ⟨ha ▸ h.1, h.2⟩
    · rename_i ha
      rw [List.map_cons, List.nodup_cons]
      refine ⟨fun hmem => ?_, ih h.2⟩
      rcases keys_setKey_sub hmem with h' | h'
      · exact h.1 h'
      · exact ha h'

/-! ## Lemmas about the subscription-filter emission loop -/

section FoldLemmas

variable (kf : String → String) (vf : String → Resource)

theorem foldl_setKey_keyCount (q : String) :
    ∀ (l : List String) (init : ResourceMap), (∀ n ∈ l, kf n ≠ q) →
      keyCount (l.foldl (fun o n => setKey o (kf n) (vf n)) init) q = keyCount init q := by
  intro l
  induction l with
  | nil => intro init _; rfl
  | cons a t ih =>
    intro init h
    rw [List.foldl_cons, ih _ (fun n hn => h n (List.mem_cons_of_mem _ hn))]
    exact keyCount_setKey_ne (h a (List.mem_cons_self _ _))

theorem foldl_setKey_lookupKey (q : String) :
    ∀ (l : List String) (init : ResourceMap), (∀ n ∈ l, kf n ≠ q) →
      lookupKey (l.foldl (fun o n => setKey o (kf n) (vf n)) init) q = lookupKey init q := by
  intro l
  induction l with
  | nil => intro init _; rfl
  | cons a t ih =>
    intro init h
    rw [List.foldl_cons, ih _ (fun n hn => h n (List.mem_cons_of_mem _ hn))]
    exact lookupKey_setKey_ne (fun h' => h a (List.mem_cons_self _ _) h'.symm)

theorem mem_foldl_setKey :
    ∀ (l : List String) (init : ResourceMap) (e : String × Resource),
      e ∈ l.foldl (fun o n => setKey o (kf n) (vf n)) init →
      e ∈ init ∨ ∃ n ∈ l, e = (kf n, vf n) := by
  intro l
  induction l with
  | nil => intro init e he; left; exact he
  | cons a t ih =>
    intro init e he
    rw [List.foldl_cons] at he
    rcases ih _ e he with h | ⟨n, hn, he'⟩
    · rcases mem_setKey h with h' | h'
      · left; exact h'
      · right; exact ⟨a, List.mem_cons_self _ _, h'⟩
    · right; exact ⟨n, List.mem_cons_of_mem _ hn, he'⟩

theorem mem_foldl_setKey_of_ne :
    ∀ (l : List String) (init : ResourceMap) (e : String × Resource),
      e ∈ init → (∀ n ∈ l, kf n ≠ e.1) →
      e ∈ l.foldl (fun o n => setKey o (kf n) (vf n)) init := by
  intro l
  induction l with
  | nil => intro init e he _; exact he
  | cons a t ih =>
    intro init e he h
    rw [List.foldl_cons]
    refine ih _ e ?_ (fun n hn => h n (List.mem_cons_of_mem _ hn))
    exact mem_setKey_of_ne (fun h' => h a (List.mem_cons_self _ _) h'.symm) he

theorem foldl_setKey_fresh :
    ∀ (l : List String) (init : ResourceMap),
      (∀ n ∈ l, ∀ e ∈ init, e.1 ≠ kf n) →
      l.Pairwise (fun a b => kf a ≠ kf b) →
      l.foldl (fun o n => setKey o (kf n) (vf n)) init
        = init ++ l.map (fun n => (kf n, vf n)) := by
  intro l
  induction l with
  | nil => intro init _ _; simp
  | cons a t ih =>
    intro init hfresh hpw
    rw [List.foldl_cons, setKey_of_fresh (hfresh a (List.mem_cons_self _ _))]
    rw [List.pairwise_cons] at hpw
    rw [ih _ ?_ hpw.2]
    · simp
    · intro n hn e he
      rcases List.mem_append.mp he with h' | h'
      · exact hfresh n (List.mem_cons_of_mem _ hn) e h'
      · rw [List.mem_singleton.mp h']
        exact hpw.1 n hn

theorem nodupKeys_foldl_setKey :
    ∀ (l : List String) (init : ResourceMap), (init.map (·.1)).Nodup →
      ((l.foldl (fun o n => setKey o (kf n) (vf n)) init).map (·.1)).Nodup := by
  intro l
  induction l with
  | nil => intro init h; exact h
  | cons a t ih =>
    intro init h
    rw [List.foldl_cons]
    exact ih _ (nodupKeys_setKey h)

end FoldLemmas

/-- The permission's fixed logical id is never a subscription-filter id. -/
theorem subKey_ne_permKey (naming : Naming) (n : String) :
    subKey naming n ≠ "LogForwardingLambdaPermission" := by
  intro h
  have h' := congrArg String.data h
  rw [subKey, String.data_append] at h'
  simp [String.data] at h'

/-- Successful synthesis, in loop-free form: the validation passed, and the
result is the fold of single-key assignments over the targets, seeded with
the permission entry. -/
theorem createResourcesObj_ok (s : Service) (conf : Conf) (naming : Naming)
    (h : (conf.destinationARN.isNone && conf.destinationFn.isNone) = false) :
    createResourcesObj s conf naming
      = .ok ((targets s conf).foldl
          (fun o n => setKey o (subKey naming n)
            (subResFor s naming conf.destinationARN (jsOrD conf.filterPattern "") n))
          [("LogForwardingLambdaPermission", permRes s conf naming)]) := by
  rw [createResourcesObj, if_neg (by simp [h])]
  rfl

/-- Failed synthesis: both destinations null throws the configuration error. -/
theorem createResourcesObj_err (s : Service) (conf : Conf) (naming : Naming)
    (ha : conf.destinationARN = none) (hf : conf.destinationFn = none) :
    createResourcesObj s conf naming = .error (.configError configErrorMsg) := by
  rw [createResourcesObj, if_pos (by simp [ha, hf])]

/-- A successful synthesis implies the destination validation passed. -/
theorem validation_passed {s : Service} {conf : Conf} {naming : Naming}
    {obj : ResourceMap} (hok : createResourcesObj s conf naming = .ok obj) :
    (conf.destinationARN.isNone && conf.destinationFn.isNone) = false := by
  by_contra h
  rw [Bool.not_eq_false] at h
  rw [createResourcesObj, if_pos h] at hok
  cases hok

/-- The synthesized object, in loop-free form. -/
theorem synth_eq {s : Service} {conf : Conf} {naming : Naming}
    {obj : ResourceMap} (hok : createResourcesObj s conf naming = .ok obj) :
    obj = (targets s conf).foldl
      (fun o n => setKey o (subKey naming n)
        (subResFor s naming conf.destinationARN (jsOrD conf.filterPattern "") n))
      [("LogForwardingLambdaPermission", permRes s conf naming)] := by
  rw [createResourcesObj_ok s conf naming (validation_passed hok)] at hok
  injection hok with h
  exact h.symm

/-- When `destinationFn` is falsy, no target is filtered out. -/
theorem targets_of_not_truthy (s : Service) (conf : Conf)
    (h : truthyStr conf.destinationFn = false) : targets s conf = catalogKeys s := by
  rcases hd : conf.destinationFn with _ | d
  · simp [targets, hd]
  · rw [hd] at h
    simp only [truthyStr, ne_eq, decide_not] at h
    have hde : d = "" := by
      by_contra hne
      simp [hne] at h
    simp [targets, hd, hde]

/-- `x || ''` agrees with reading the optional value with default `""`. -/
theorem jsOrD_empty (a : Option String) : jsOrD a "" = a.getD "" := by
  rcases a with _ | s
  · rfl
  · by_cases hs : s = "" <;> simp [jsOrD, hs]

/-- Every emitted target is a catalog key. -/
theorem targets_sub (s : Service) (conf : Conf) {n : String}
    (h : n ∈ targets s conf) : n ∈ catalogKeys s := by
  rcases hd : conf.destinationFn with _ | d
  · simpa [targets, hd] using h
  · simp only [targets, hd] at h
    by_cases hde : d = ""
    · simpa [hde] using h
    · rw [if_neg hde] at h
      exact List.mem_of_mem_filter h

/-! ## Lemmas about the merge into the host collection -/

theorem lookupKey_eq_none_of_fresh :
    ∀ (obj : ResourceMap) (q : String), (∀ e ∈ obj, e.1 ≠ q) → lookupKey obj q = none := by
  intro obj
  induction obj with
  | nil => intro q _; rfl
  | cons a rest ih =>
    intro q h
    rw [lookupKey, if_neg (h a (List.mem_cons_self _ _))]
    exact ih q (fun e he => h e (List.mem_cons_of_mem _ he))

theorem lookupKey_extendObj_of_fresh :
    ∀ (upd b : ResourceMap) (q : String), (∀ e ∈ upd, e.1 ≠ q) →
      lookupKey (extendObj b upd) q = lookupKey b q := by
  intro upd
  induction upd with
  | nil => intro b q _; rfl
  | cons a rest ih =>
    intro b q h
    show lookupKey (extendObj (setKey b a.1 a.2) rest) q = _
    rw [ih _ q (fun e he => h e (List.mem_cons_of_mem _ he))]
    exact lookupKey_setKey_ne (fun h' => h a (List.mem_cons_self _ _) h'.symm)

theorem lookupKey_extendObj_of_mem :
    ∀ (upd b : ResourceMap) (q : String) (v : Resource),
      ((upd.map (·.1)).Nodup) → lookupKey upd q = some v →
      lookupKey (extendObj b upd) q = some v := by
  intro upd
  induction upd with
  | nil => intro b q v _ h; cases h
  | cons a rest ih =>
    intro b q v hnodup h
    rw [List.map_cons, List.nodup_cons] at hnodup
    show lookupKey (extendObj (setKey b a.1 a.2) rest) q = some v
    by_cases haq : a.1 = q
    · rw [lookupKey, if_pos haq] at h
      have hq : ∀ e ∈ rest, e.1 ≠ q := by
        intro e he h'
        exact hnodup.1 (haq ▸ h' ▸ List.mem_map.mpr ⟨e, he, rfl⟩)
      rw [lookupKey_extendObj_of_fresh rest _ q hq, ← haq, lookupKey_setKey_self]
      exact h
    · rw [lookupKey, if_neg haq] at h
      exact ih _ q v hnodup.2 h

/-- The synthesized object has no repeated logical ids. -/
theorem synth_nodupKeys {s : Service} {conf : Conf} {naming : Naming}
    {obj : ResourceMap} (hok : createResourcesObj s conf naming = .ok obj) :
    (obj.map (·.1)).Nodup := by
  rw [synth_eq hok]
  exact nodupKeys_foldl_setKey _ _ _ _ (by simp)

/-- The target list never repeats a name when the catalog does not. -/
theorem targets_nodup {s : Service} (conf : Conf)
    (hnodup : (catalogKeys s).Nodup) : (targets s conf).Nodup := by
  rcases hd : conf.destinationFn with _ | d
  · simpa [targets, hd] using hnodup
  · simp only [targets, hd]
    split
    · exact hnodup
    · exact hnodup.filter _

/-- Counting a subscription logical id in the synthesized object: function
`n`'s id occurs exactly as often as `n` occurs in the target list, provided
the normalization is injective over the catalog. -/
theorem keyCount_synth {s : Service} {conf : Conf} {naming : Naming}
    (hnodup : (catalogKeys s).Nodup)
    (hinj : ∀ a ∈ catalogKeys s, ∀ b ∈ catalogKeys s,
      naming.getNormalizedFunctionName a = naming.getNormalizedFunctionName b → a = b)
    {obj : ResourceMap} (hok : createResourcesObj s conf naming = .ok obj)
    {n : String} (hn : n ∈ catalogKeys s) :
    keyCount obj (subKey naming n) = (targets s conf).count n := by
  have hsubinj : ∀ a ∈ catalogKeys s, ∀ b ∈ catalogKeys s,
      subKey naming a = subKey naming b → a = b := by
    intro a ha b hb h
    apply hinj a ha b hb
    have h' := congrArg String.data h
    rw [subKey, subKey, String.data_append, String.data_append] at h'
    exact String.ext (List.append_cancel_left h')
  have htnodup : (targets s conf).Nodup := targets_nodup conf hnodup
  have hpw : (targets s conf).Pairwise
      (fun a b => subKey naming a ≠ subKey naming b) := by
    refine List.Pairwise.imp_of_mem ?_ htnodup
    intro a b ha hb hne h
    exact hne (hsubinj a (targets_sub s conf ha) b (targets_sub s conf hb) h)
  have hfresh : ∀ m ∈ targets s conf,
      ∀ e ∈ ([("LogForwardingLambdaPermission", permRes s conf naming)] : ResourceMap),
        e.1 ≠ subKey naming m := by
    intro m _ e he
    rw [List.mem_singleton.mp he]
    exact fun h' => subKey_ne_permKey naming m h'.symm
  rw [synth_eq hok, foldl_setKey_fresh _ _ _ _ hfresh hpw, keyCount, List.countP_append]
  have h0 : List.countP (fun e => e.1 == subKey naming n)
      [("LogForwardingLambdaPermission", permRes s conf naming)] = 0 := by
    rw [List.countP_cons_of_neg]
    · rfl
    · simp only [beq_iff_eq]
      exact fun h' => subKey_ne_permKey naming n h'.symm
  rw [h0, List.countP_map, Nat.zero_add]
  refine List.countP_congr ?_
  intro m hm
  simp only [Function.comp_apply, beq_iff_eq]
  constructor
  · intro h
    exact hsubinj m (targets_sub s conf hm) n hn h
  · intro h
    rw [h]

/-- The permission entry is never overwritten: looking the fixed logical id
up in the synthesized object yields the permission declaration. -/
theorem lookup_perm {s : Service} {conf : Conf} {naming : Naming}
    {obj : ResourceMap} (hok : createResourcesObj s conf naming = .ok obj) :
    lookupKey obj "LogForwardingLambdaPermission" = some (permRes s conf naming) := by
  rw [synth_eq hok]
  rw [foldl_setKey_lookupKey _ _ _ _ _ (fun n _ => subKey_ne_permKey naming n)]
  simp [lookupKey]

/-! ## The claims -/

/-- Claim C1: with a truthy `destinationFn` that names a catalog member, the
synthesized object holds exactly one subscription filter for every other
catalog function and none for the destination itself; with a falsy
`destinationFn` (external ARN only), every catalog function gets exactly
one. Uniqueness assumes the naming collaborator's normalization is injective
over the catalog. -/
theorem claim_C1_target_enumeration (s : Service) (conf : Conf) (naming : Naming)
    (hnodup : (catalogKeys s).Nodup)
    (hinj : ∀ a ∈ catalogKeys s, ∀ b ∈ catalogKeys s,
      naming.getNormalizedFunctionName a = naming.getNormalizedFunctionName b → a = b) :
    (∀ d, conf.destinationFn = some d → d ≠ "" → d ∈ catalogKeys s →
      ∀ obj, createResourcesObj s conf naming = .ok obj →
        (∀ n ∈ catalogKeys s, n ≠ d → keyCount obj (subKey naming n) = 1) ∧
        keyCount obj (subKey naming d) = 0) ∧
    (truthyStr conf.destinationFn = false →
      ∀ obj, createResourcesObj s conf naming = .ok obj →
        ∀ n ∈ catalogKeys s, keyCount obj (subKey naming n) = 1) := by
  constructor
  · intro d hd hde hdmem obj hok
    have htargets : targets s conf
        = (catalogKeys s).filter (fun n => n ≠ d) := by
      simp only [targets, hd]
      rw [if_neg hde]
    constructor
    · intro n hn hnd
      rw [keyCount_synth hnodup hinj hok hn, htargets]
      apply List.count_eq_one_of_mem (hnodup.filter _)
      rw [List.mem_filter]
      exact ⟨hn, by simp [hnd]⟩
    · rw [keyCount_synth hnodup hinj hok hdmem, htargets, List.count_eq_zero]
      intro hmem
      rw [List.mem_filter] at hmem
      simp at hmem
  · intro ht obj hok n hn
    rw [keyCount_synth hnodup hinj hok hn, targets_of_not_truthy s conf ht]
    exact List.count_eq_one_of_mem hnodup hn

/-- Concrete check of C1 on `service1` (catalog `{fnA, fnDest}`, destination
`fnDest`): `fnA` gets exactly one filter, `fnDest` none. -/
theorem claim_C1_witness :
    keyCount obj1 (subKey naming0 "fnA") = 1 ∧
    keyCount obj1 (subKey naming0 "fnDest") = 0 := by
  have h := (claim_C1_target_enumeration service1 conf1 naming0 (by decide) (by decide)).1
    "fnDest" rfl (by decide) (by decide) obj1 rfl
  exact ⟨h.1 "fnA" (by decide) (by decide), h.2⟩

/-- Claim C2: with both destinations null, synthesis throws the configuration
error; when the run reaches synthesis (configuration block present, stage not
skipped), `updateResources` propagates that error with the host service left
exactly as it was, only the start message having been logged. -/
theorem claim_C2_missing_destination (s : Service) (conf : Conf) (naming : Naming)
    (opts : Options) (c : Custom)
    (ha : conf.destinationARN = none) (hf : conf.destinationFn = none)
    (hc : s.serviceInner.custom = some c) (hlf : c.logForwarding = some conf)
    (hgate : conf.stages = none ∨
      ∃ l, conf.stages = some l ∧ l.contains (stageOf opts s) = true) :
    createResourcesObj s conf naming = .error (.configError configErrorMsg) ∧
    updateResources s opts naming =
      { service := s
        logs := ["Updating Log Forwarding Resources..."]
        error := some (.configError configErrorMsg) } := by
  have herr := createResourcesObj_err s conf naming ha hf
  refine ⟨herr, ?_⟩
  have hbody : updateResourcesBody s conf naming =
      { service := s
        logs := ["Updating Log Forwarding Resources..."]
        error := some (.configError configErrorMsg) } := by
    simp only [updateResourcesBody, herr]
  rw [← hbody]
  simp only [updateResources, getConf, hc, hlf]
  rcases hgate with hs | ⟨l, hs, hm⟩
  · simp [hs]
  · have hmem : stageOf opts s ∈ l := by simpa using hm
    simp [hs, hmem]

/-- Concrete check of C2 on a destination-less configuration. -/
theorem claim_C2_witness :
    createResourcesObj serviceBad confBad naming0 = .error (.configError configErrorMsg) ∧
    updateResources serviceBad opts0 naming0 =
      { service := serviceBad
        logs := ["Updating Log Forwarding Resources..."]
        error := some (.configError configErrorMsg) } :=
  claim_C2_missing_destination serviceBad confBad naming0 opts0 ⟨some confBad⟩
    rfl rfl rfl rfl (Or.inl rfl)

/-- Claim C3: every successful synthesis produces exactly one entry under the
fixed `LogForwardingLambdaPermission` key, and every other entry's key
carries the `SubscriptionFilter` tag in front, so no subscription ever
overwrites the permission. -/
theorem claim_C3_single_permission (s : Service) (conf : Conf) (naming : Naming)
    (obj : ResourceMap) (hok : createResourcesObj s conf naming = .ok obj) :
    keyCount obj "LogForwardingLambdaPermission" = 1 ∧
    (∀ e ∈ obj, e.1 ≠ "LogForwardingLambdaPermission" →
      ∃ x, e.1 = "SubscriptionFilter" ++ x) := by
  constructor
  · rw [synth_eq hok]
    rw [foldl_setKey_keyCount _ _ _ _ _ (fun n _ => subKey_ne_permKey naming n)]
    simp [keyCount]
  · intro e he hne
    rw [synth_eq hok] at he
    rcases mem_foldl_setKey _ _ _ _ _ he with h | ⟨n, _, h⟩
    · rw [List.mem_singleton] at h
      exact absurd (by rw [h]) hne
    · exact ⟨naming.getNormalizedFunctionName n, by rw [h]; rfl⟩

/-- Concrete check of C3 on `service2` (two functions, external ARN). -/
theorem claim_C3_witness : keyCount obj2 "LogForwardingLambdaPermission" = 1 :=
  (claim_C3_single_permission service2 conf2 naming0 obj2 rfl).1

/-- Claim C4: every subscription-filter entry in the synthesized object was
generated for some catalog function `n`: its key is the naming collaborator's
normalization of `n` behind the fixed tag, and its `DependsOn` is exactly the
permission key followed by `n`'s log-group logical id. -/
theorem claim_C4_filter_wiring (s : Service) (conf : Conf) (naming : Naming)
    (obj : ResourceMap) (hok : createResourcesObj s conf naming = .ok obj) :
    ∀ key props deps, (key, Resource.subscriptionFilter props deps) ∈ obj →
      ∃ n, n ∈ catalogKeys s ∧ key = subKey naming n ∧
        deps = ["LogForwardingLambdaPermission", naming.getLogGroupLogicalId n] := by
  intro key props deps hmem
  rw [synth_eq hok] at hmem
  rcases mem_foldl_setKey _ _ _ _ _ hmem with h | ⟨n, hn, h⟩
  · rw [List.mem_singleton] at h
    simp [permRes] at h
  · rw [Prod.mk.injEq] at h
    refine ⟨n, targets_sub s conf hn, h.1, ?_⟩
    have h2 := h.2
    rw [subResFor, Resource.subscriptionFilter.injEq] at h2
    exact h2.2

/-- Concrete check of C4: the filter synthesized for `fnB` in `service2`. -/
theorem claim_C4_witness :
    lookupKey obj2 (subKey naming0 "fnB") = some (.subscriptionFilter
      ⟨some "arn:aws:lambda:us-east-1:123:function:dest", "ERROR", "/aws/lambda/svc-fnB"⟩
      ["LogForwardingLambdaPermission", "fnBLogGroup"]) := by
  obtain ⟨n, hn, hkey, hdeps⟩ := claim_C4_filter_wiring service2 conf2 naming0 obj2 rfl
    (subKey naming0 "fnB")
    ⟨some "arn:aws:lambda:us-east-1:123:function:dest", "ERROR", "/aws/lambda/svc-fnB"⟩
    ["LogForwardingLambdaPermission", "fnBLogGroup"] (by decide)
  decide

/-- Claim C5: the permission declaration depends on the destination
function's lambda logical id exactly when `destinationFn` is truthy, and has
no `DependsOn` when the destination is only an external ARN. -/
theorem claim_C5_permission_dependency (s : Service) (conf : Conf) (naming : Naming)
    (obj : ResourceMap) (hok : createResourcesObj s conf naming = .ok obj) :
    ∃ r, lookupKey obj "LogForwardingLambdaPermission" = some r ∧
      (∀ d, conf.destinationFn = some d → d ≠ "" →
        r.dependsOn = some [naming.getLambdaLogicalId d]) ∧
      (truthyStr conf.destinationFn = false → r.dependsOn = none) := by
  refine ⟨permRes s conf naming, lookup_perm hok, ?_, ?_⟩
  · intro d hd hde
    simp [Resource.dependsOn, permRes, permDeps, hd, hde]
  · intro ht
    rcases hdc : conf.destinationFn with _ | d
    · simp [Resource.dependsOn, permRes, permDeps, hdc]
    · rw [hdc] at ht
      have hde : d = "" := by simpa [truthyStr] using ht
      simp [Resource.dependsOn, permRes, permDeps, hdc, hde]

/-- Concrete check of C5 on `service1`: the permission depends on `fnDest`'s
lambda logical id. -/
theorem claim_C5_witness :
    lookupKey obj1 "LogForwardingLambdaPermission" = some (.permission
      ⟨some "fnDest", "lambda:InvokeFunction", "logs.us-east-1.amazonaws.com"⟩
      (some ["fnDestLambdaFunction"])) := by
  obtain ⟨r, hr, hdep, -⟩ := claim_C5_permission_dependency service1 conf1 naming0 obj1 rfl
  have hd := hdep "fnDest" rfl (by decide)
  decide

/-- Claim C6: the permission's properties: `FunctionName` is the ARN when it
is a truthy value, else `destinationFn`; `Action` is the fixed invoke action;
`Principal` is the region-qualified log-service principal. -/
theorem claim_C6_permission_properties (s : Service) (conf : Conf) (naming : Naming)
    (obj : ResourceMap) (hok : createResourcesObj s conf naming = .ok obj) :
    ∃ props deps,
      lookupKey obj "LogForwardingLambdaPermission" = some (.permission props deps) ∧
      (∀ a, conf.destinationARN = some a → a ≠ "" → props.FunctionName = some a) ∧
      (truthyStr conf.destinationARN = false → props.FunctionName = conf.destinationFn) ∧
      props.Action = "lambda:InvokeFunction" ∧
      props.Principal = "logs." ++ s.provider.region ++ ".amazonaws.com" := by
  refine ⟨{ FunctionName := jsOr conf.destinationARN conf.destinationFn
            Action := "lambda:InvokeFunction"
            Principal := "logs." ++ s.provider.region ++ ".amazonaws.com" },
    permDeps conf naming, lookup_perm hok, ?_, ?_, rfl, rfl⟩
  · intro a ha hne
    simp [jsOr, truthyStr, ha, hne]
  · intro ht
    simp [jsOr, ht]

/-- Concrete check of C6 on `service2`: the ARN becomes `FunctionName` and
the principal is formatted from the region. -/
theorem claim_C6_witness :
    lookupKey obj2 "LogForwardingLambdaPermission" = some (.permission
      ⟨some "arn:aws:lambda:us-east-1:123:function:dest", "lambda:InvokeFunction",
        "logs.us-east-1.amazonaws.com"⟩ none) := by
  obtain ⟨props, deps, hlook, harn, -, hact, hprin⟩ :=
    claim_C6_permission_properties service2 conf2 naming0 obj2 rfl
  have h := harn "arn:aws:lambda:us-east-1:123:function:dest" rfl (by decide)
  decide

/-- Claim C7: every subscription filter carries the raw configured
`destinationARN` (absent when none was configured, even for an internal
destination), the configured filter pattern defaulted to `""`, and the
naming collaborator's log-group name of its own target function: the same
catalog function `n` the entry is keyed by. -/
theorem claim_C7_filter_properties (s : Service) (conf : Conf) (naming : Naming)
    (obj : ResourceMap) (hok : createResourcesObj s conf naming = .ok obj) :
    ∀ key props deps, (key, Resource.subscriptionFilter props deps) ∈ obj →
      props.DestinationArn = conf.destinationARN ∧
      (conf.destinationARN = none → props.DestinationArn = none) ∧
      props.FilterPattern = conf.filterPattern.getD "" ∧
      ∃ n, n ∈ catalogKeys s ∧ key = subKey naming n ∧
        props.LogGroupName = naming.getLogGroupName (getFunction s.functions n).name := by
  intro key props deps hmem
  rw [synth_eq hok] at hmem
  rcases mem_foldl_setKey _ _ _ _ _ hmem with h | ⟨n, hn, h⟩
  · rw [List.mem_singleton] at h
    simp [permRes] at h
  · rw [Prod.mk.injEq] at h
    have h2 := h.2
    rw [subResFor, Resource.subscriptionFilter.injEq] at h2
    obtain ⟨hp, -⟩ := h2
    subst hp
    exact ⟨rfl, fun h' => h', jsOrD_empty conf.filterPattern,
      n, targets_sub s conf hn, h.1, rfl⟩

/-- Concrete check of C7 on `service1` (internal destination, no ARN): the
filter's destination property is absent and the pattern defaults to `""`. -/
theorem claim_C7_witness :
    lookupKey obj1 (subKey naming0 "fnA") = some (.subscriptionFilter
      ⟨none, "", "/aws/lambda/svc-fnA"⟩
      ["LogForwardingLambdaPermission", "fnALogGroup"]) := by
  obtain ⟨ha, hnone, hfp, n, hn, hkey, hlg⟩ :=
    claim_C7_filter_properties service1 conf1 naming0 obj1 rfl (subKey naming0 "fnA")
      ⟨none, "", "/aws/lambda/svc-fnA"⟩
      ["LogForwardingLambdaPermission", "fnALogGroup"] (by decide)
  decide

/-- Claim C8: when a stages list is configured and the current stage is not
in it, `updateResources` returns normally with only the informational
message: no validation, no synthesis, no change to the host service. -/
theorem claim_C8_stage_skip (s : Service) (opts : Options) (naming : Naming)
    (c : Custom) (conf : Conf) (l : List String)
    (hc : s.serviceInner.custom = some c) (hlf : c.logForwarding = some conf)
    (hs : conf.stages = some l) (hskip : l.contains (stageOf opts s) = false) :
    updateResources s opts naming =
      { service := s
        logs := ["Log Forwarding is ignored for " ++ stageOf opts s ++ " stage"]
        error := none } := by
  simp only [updateResources, getConf, hc, hlf, hs, hskip]
  simp

/-- Concrete check of C8: stage `dev` is not in `["production"]`, so the run
skips with the notice and no error, even though it would synthesize fine. -/
theorem claim_C8_witness :
    updateResources serviceStaged opts0 naming0 =
      { service := serviceStaged
        logs := ["Log Forwarding is ignored for dev stage"]
        error := none } :=
  claim_C8_stage_skip serviceStaged opts0 naming0 ⟨some confStaged⟩ confStaged
    ["production"] rfl rfl rfl rfl

/-- Claim C9: when the run reaches the merge, the host's `Resources`
namespace afterwards holds exactly the extension of the pre-existing entries
(`[]` when the namespace or the `resources` object was absent) by the
synthesized object: produced keys win, all other pre-existing keys read
unchanged. -/
theorem claim_C9_merge_semantics (s : Service) (opts : Options) (naming : Naming)
    (c : Custom) (conf : Conf) (obj : ResourceMap)
    (hc : s.serviceInner.custom = some c) (hlf : c.logForwarding = some conf)
    (hgate : conf.stages = none ∨
      ∃ l, conf.stages = some l ∧ l.contains (stageOf opts s) = true)
    (hok : createResourcesObj s conf naming = .ok obj) :
    (updateResources s opts naming).error = none ∧
    (updateResources s opts naming).service.resources
      = some ⟨some (extendObj (existingResources s) obj)⟩ ∧
    (s.resources = none → existingResources s = []) ∧
    (∀ rs, s.resources = some rs → rs.Resources = none → existingResources s = []) ∧
    (∀ q v, lookupKey obj q = some v →
      lookupKey (extendObj (existingResources s) obj) q = some v) ∧
    (∀ q, (∀ e ∈ obj, e.1 ≠ q) →
      lookupKey (extendObj (existingResources s) obj) q
        = lookupKey (existingResources s) q) := by
  have hrun : updateResources s opts naming = updateResourcesBody s conf naming := by
    simp only [updateResources, getConf, hc, hlf]
    rcases hgate with hs | ⟨l, hs, hm⟩
    · simp [hs]
    · have hmem : stageOf opts s ∈ l := by simpa using hm
      simp [hs, hmem]
  have hbody : updateResourcesBody s conf naming =
      { service := { s with resources := some ⟨some (extendObj (existingResources s) obj)⟩ }
        logs := ["Updating Log Forwarding Resources...", "Log Forwarding Resources Updated"]
        error := none } := by
    simp only [updateResourcesBody, hok]
    rfl
  refine ⟨by rw [hrun, hbody], by rw [hrun, hbody], ?_, ?_, ?_, ?_⟩
  · intro h
    simp [existingResources, h]
  · intro rs hrs h
    simp [existingResources, hrs, h]
  · intro q v h
    exact lookupKey_extendObj_of_mem obj _ q v (synth_nodupKeys hok) h
  · intro q h
    exact lookupKey_extendObj_of_fresh obj _ q h

/-- Concrete check of C9 on `service2`: the run succeeds and the pre-existing
`Existing` entry survives the merge unchanged. -/
theorem claim_C9_witness :
    (updateResources service2 opts0 naming0).error = none ∧
    lookupKey (extendObj (existingResources service2) obj2) "Existing"
      = some (.permission ⟨some "keep", "a", "p"⟩ none) := by
  have h := claim_C9_merge_semantics service2 opts0 naming0 ⟨some conf2⟩ conf2 obj2
    rfl rfl (Or.inl rfl) rfl
  refine ⟨h.1, ?_⟩
  rw [h.2.2.2.2.2 "Existing" (by decide)]
  decide

/-- Claim C10: with no `custom` section, or no `custom.logForwarding` block,
`updateResources` throws a `TypeError` from a property access before logging
or generating anything, and not the documented configuration error. -/
theorem claim_C10_missing_block_typeerror (s : Service) (opts : Options) (naming : Naming) :
    (s.serviceInner.custom = none →
      updateResources s opts naming =
        { service := s, logs := [], error := some (.typeError typeErrorLogForwarding) }) ∧
    (∀ c, s.serviceInner.custom = some c → c.logForwarding = none →
      updateResources s opts naming =
        { service := s, logs := [], error := some (.typeError typeErrorStages) }) := by
  constructor
  · intro h
    simp [updateResources, getConf, h]
  · intro c hc hlf
    simp [updateResources, getConf, hc, hlf]

/-- Concrete check of C10 on services missing `custom` and missing
`custom.logForwarding`. -/
theorem claim_C10_witness :
    updateResources serviceNoCustom opts0 naming0 =
      { service := serviceNoCustom, logs := []
        error := some (.typeError typeErrorLogForwarding) } ∧
    updateResources serviceNoLF opts0 naming0 =
      { service := serviceNoLF, logs := []
        error := some (.typeError typeErrorStages) } :=
  ⟨(claim_C10_missing_block_typeerror serviceNoCustom opts0 naming0).1 rfl,
   (claim_C10_missing_block_typeerror serviceNoLF opts0 naming0).2 ⟨none⟩ rfl rfl⟩

end LogForwarding
